import Mathlib

/-!
Shallow embedding of the LoopLens analysis engine (the `startAnalysis`
pipeline and its helpers in the VideoAnalyzer component), over exact
rationals.  Machine floats of the source are modelled as `ℚ`; JavaScript
`Math.floor` / `Math.ceil` / `Math.round` become `Int.floor` / `Int.ceil` /
`jsRound`; the fallible audio decode becomes an `Except` value.  Each
definition mirrors one region of the source; theorems about the spec's
claims follow the definitions.
-/

namespace LoopLens

/-- JavaScript `Math.round`: round half away from zero toward plus
infinity, i.e. `⌊q + 1/2⌋`. -/
def jsRound (q : ℚ) : ℤ := Int.floor (q + 1 / 2)

/-- Detection mode from `AnalysisConfig.detectionMode` in `types.ts`. -/
inductive DetectionMode where
  | reps
  | sets
deriving DecidableEq

/-- Configuration record `AnalysisConfig` from `types.ts` (numeric fields as
`ℚ`, `smoothingWindow` is an integer frame count). -/
structure AnalysisConfig where
  sensitivity : ℚ
  minLoopDuration : ℚ
  maxLoopDuration : ℚ
  samplingRate : ℚ
  smoothingWindow : Nat
  detectionMode : DetectionMode
  detectSceneChanges : Bool
  ignoreSteadyMotion : Bool
  audioWeight : ℚ
deriving DecidableEq

/-- One raw analysed instant before fusion: the time together with the
cleaned visual score and the audio RMS score stored in `_raw` in the
sampling loop of `startAnalysis`. -/
structure RawSample where
  time : ℚ
  v : ℚ
  a : ℚ
deriving DecidableEq

/-- One element of `combinedData` / `processedData` / `detrendedData`:
a time instant with its fused value and scene-cut flag. -/
structure Sample where
  time : ℚ
  value : ℚ
  isSceneCut : Bool
deriving DecidableEq

/-- Default sample used for out-of-range index reads (all in-range in the
pipeline). -/
def emptySample : Sample := { time := 0, value := 0, isSceneCut := false }

/-- A detected peak of the smoothed signal: `{ ...smoothedData[i], index: i }`. -/
structure Peak where
  time : ℚ
  value : ℚ
  index : Nat
deriving DecidableEq

/-- Result record `DetectedLoop` from `types.ts` (the `id` and `thumbnail`
fields, pure bookkeeping strings, are omitted). -/
structure DetectedLoop where
  startTime : ℚ
  endTime : ℚ
  duration : ℚ
  bpm : ℤ
  confidence : ℚ
  repCount : Nat
  label : String
deriving DecidableEq

/-- Default loop used for out-of-range index reads (never hit: merge
groups are nonempty). -/
def emptyLoop : DetectedLoop :=
  { startTime := 0, endTime := 0, duration := 0, bpm := 0, confidence := 0,
    repCount := 0, label := "" }

/-- Log levels of the external log sink (`LogEntry.level` in `types.ts`). -/
inductive LogLevel where
  | info
  | success
  | warn
  | error
deriving DecidableEq

/-- Decoded audio track: sample rate plus the first channel's PCM data
(`audioBuffer.sampleRate`, `audioBuffer.getChannelData(0)`). -/
structure AudioBuffer where
  sampleRate : ℚ
  channelData : List ℚ

/-- The audio setup block of `startAnalysis`: when `config.audioWeight > 0`
it logs an info line and attempts the decode; a successful decode yields
the buffer and a success log, a failed decode yields no buffer and a
*warning* log (analysis continues).  With zero audio weight the decode is
never attempted. -/
def audioSetup (audioWeight : ℚ) (decoded : Except Unit AudioBuffer) :
    Option AudioBuffer × List LogLevel :=
  if 0 < audioWeight then
    match decoded with
    | Except.ok buf => (some buf, [LogLevel.info, LogLevel.success])
    | Except.error _ => (none, [LogLevel.info, LogLevel.warn])
  else (none, [])

/-- Helper `getAudioRMS` from `startAnalysis`: RMS energy of the mono channel over
the sample window `[time, time + windowSize)`, scaled by 1000; `0` when no
buffer is available or the window holds no samples.  The square root is
passed in as `sqrtQ` (the source calls `Math.sqrt`); times are nonnegative
in every run, so sample indices are naturals. -/
def getAudioRMS (sqrtQ : ℚ → ℚ) (audioBuffer : Option AudioBuffer)
    (time windowSize : ℚ) : ℚ :=
  match audioBuffer with
  | none => 0
  | some buf =>
    let startSample := (Int.floor (time * buf.sampleRate)).toNat
    let endSample := (Int.floor ((time + windowSize) * buf.sampleRate)).toNat
    let stop := min endSample buf.channelData.length
    let idxs := (List.range (stop - startSample)).map (fun o => o + startSample)
    let sumSq := (idxs.map (fun i =>
      buf.channelData.getD i 0 * buf.channelData.getD i 0)).sum
    if idxs.length = 0 then 0 else sqrtQ (sumSq / (idxs.length : ℚ)) * 1000

/-- The sampled instants of the extraction loop
`for (let t = 0; t < duration; t += interval)`, in exact arithmetic:
`k · interval` for every natural `k` with `k · interval < duration`. -/
def sampleTimes (duration interval : ℚ) : List ℚ :=
  (List.range (Int.ceil (duration / interval)).toNat).map
    (fun (k : Nat) => (k : ℚ) * interval)

/-- The progress values the sampling loop reports:
`onProgress((t / duration) * 100)` once per sampled instant.  No other
progress emission exists in the engine. -/
def progressEmissions (duration interval : ℚ) : List ℚ :=
  (sampleTimes duration interval).map (fun t => t / duration * 100)

/-- The audio score of every sampled instant:
`getAudioRMS(t, interval)` in the extraction loop. -/
def audioScores (sqrtQ : ℚ → ℚ) (buf : Option AudioBuffer)
    (duration interval : ℚ) : List ℚ :=
  (sampleTimes duration interval).map
    (fun t => getAudioRMS sqrtQ buf t interval)

/-- The `reduce(...)/length || 1` average of `startAnalysis`: arithmetic
mean with fallback `1` when the mean is `0` (which covers the empty
sequence, where the source divides `0/0`). -/
def fallbackAvg (scores : List ℚ) : ℚ :=
  let m := scores.sum / (scores.length : ℚ)
  if m = 0 then 1 else m

/-- Dynamic-gain normalization of one raw score:
`Math.min(1, raw / (avg * 2))`. -/
def normalizeScore (raw avg : ℚ) : ℚ := min 1 (raw / (avg * 2))

/-- The fusion pass of `startAnalysis` (post-processing step building
`processedData`): normalize each raw pair against twice the clip average,
clamp to 1, and blend with the audio weight `wA = audioWeight/100`,
`wV = 1 - wA`, scaling back to the 0–255 range. -/
def fuseScores (audioWeight : ℚ) (raws : List RawSample) : List Sample :=
  let avgV := fallbackAvg (raws.map RawSample.v)
  let avgA := fallbackAvg (raws.map RawSample.a)
  let wA := audioWeight / 100
  let wV := 1 - wA
  raws.map (fun r =>
    { time := r.time,
      value := (normalizeScore r.v avgV * wV + normalizeScore r.a avgA * wA) * 255,
      isSceneCut := false })

/-- Scene-cut detection (step 1.1 of `startAnalysis`): flag every instant
whose raw visual score exceeds six times the mean raw visual score. -/
def applySceneCuts (raws : List RawSample) (processed : List Sample) :
    List Sample :=
  let vAvg := (raws.map RawSample.v).sum / (raws.length : ℚ)
  let threshold := vAvg * 6
  processed.zipWith
    (fun d r => if r.v > threshold then { d with isSceneCut := true } else d)
    raws

/-- Mean of `arr[j]` for `j` from `max(0, i - w)` to
`min(arr.length - 1, i + w)` — the moving-average window shared by the
detrend and smoothing stages. -/
def windowMean (arr : List ℚ) (w i : Nat) : ℚ :=
  let lo := i - w
  let hi := min (arr.length - 1) (i + w)
  let idxs := (List.range (hi + 1 - lo)).map (fun o => o + lo)
  (idxs.map (fun j => arr.getD j 0)).sum / (idxs.length : ℚ)

/-- Detrending (step 1.2 of `startAnalysis`): subtract the local moving
average over half-width `⌊samplingRate * 1.5⌋` and clamp at zero. -/
def detrendStage (samplingRate : ℚ) (processed : List Sample) : List Sample :=
  let trendWindow := (Int.floor (samplingRate * (3 / 2))).toNat
  let vals := processed.map Sample.value
  (List.range processed.length).map (fun i =>
    let d := processed.getD i emptySample
    { d with value := max 0 (d.value - windowMean vals trendWindow i) })

/-- The effective smoothing half-width `config.smoothingWindow || 2`:
JavaScript `||` replaces the falsy value `0` by `2`. -/
def effectiveSmoothingWindow (smoothingWindow : Nat) : Nat :=
  if smoothingWindow = 0 then 2 else smoothingWindow

/-- The smoothing stage of peak detection (step 2 of `startAnalysis`):
moving average with half-width `effectiveSmoothingWindow`. -/
def smoothStage (smoothingWindow : Nat) (arr : List Sample) : List Sample :=
  let w := effectiveSmoothingWindow smoothingWindow
  let vals := arr.map Sample.value
  (List.range arr.length).map (fun i =>
    let d := arr.getD i emptySample
    { d with value := windowMean vals w i })

/-- Threshold `peakThreshold = avgEnergy * (1 + sensitivity / 50)` where
`avgEnergy` is the mean smoothed value. -/
def peakThreshold (sensitivity : ℚ) (smoothed : List Sample) : ℚ :=
  ((smoothed.map Sample.value).sum / (smoothed.length : ℚ)) *
    (1 + sensitivity / 50)

/-- One iteration of the peak-scan loop: index `i` yields a peak exactly
when it is strictly interior and `smoothed[i]` strictly exceeds both
neighbours and the threshold. -/
def peakAt (smoothed : List Sample) (threshold : ℚ) (i : Nat) : Option Peak :=
  if (1 ≤ i ∧ i + 1 < smoothed.length) ∧
      (smoothed.getD i emptySample).value > (smoothed.getD (i - 1) emptySample).value ∧
      (smoothed.getD i emptySample).value > (smoothed.getD (i + 1) emptySample).value ∧
      (smoothed.getD i emptySample).value > threshold then
    some { time := (smoothed.getD i emptySample).time,
           value := (smoothed.getD i emptySample).value, index := i }
  else none

/-- The peak-scan loop of `startAnalysis` (`for i = 1 .. length - 2`). -/
def detectPeaks (smoothed : List Sample) (threshold : ℚ) : List Peak :=
  (List.range smoothed.length).filterMap (peakAt smoothed threshold)

/-- The scene-cut scan of atomic-loop generation:
`for (k = startPeak.index; k < endPeak.index; k++)` — the start index is
included, the end index excluded. -/
def hasCutInLoop (detectSceneChanges : Bool) (detrended : List Sample)
    (startIdx endIdx : Nat) : Bool :=
  detectSceneChanges &&
    ((List.range (endIdx - startIdx)).map (fun o => o + startIdx)).any
      (fun k => (detrended.getD k emptySample).isSceneCut)

/-- One iteration of atomic-loop generation (step 3 of `startAnalysis`):
a consecutive peak pair yields a loop when no scene cut is found by
`hasCutInLoop` and the duration lies inside the configured bounds
(both bounds inclusive: `>=` and `<=` in the source). -/
def loopCandidate (cfg : AnalysisConfig) (detrended : List Sample)
    (startPeak endPeak : Peak) : Option DetectedLoop :=
  let loopDuration := endPeak.time - startPeak.time
  let hasCut := hasCutInLoop cfg.detectSceneChanges detrended
    startPeak.index endPeak.index
  if hasCut = false ∧ cfg.minLoopDuration ≤ loopDuration ∧
      loopDuration ≤ cfg.maxLoopDuration then
    some { startTime := startPeak.time, endTime := endPeak.time,
           duration := loopDuration,
           bpm := jsRound (60 / loopDuration),
           confidence := min 1 ((startPeak.value + endPeak.value) / (2 * 255) * 5),
           repCount := 1, label := "" }
  else none

/-- Step 3 of `startAnalysis`: run `loopCandidate` over every consecutive
peak pair. -/
def atomicLoops (cfg : AnalysisConfig) (detrended : List Sample)
    (peaks : List Peak) : List DetectedLoop :=
  (peaks.zip peaks.tail).filterMap
    (fun p => loopCandidate cfg detrended p.1 p.2)

/-- Relabel one atomic loop for reps mode (`Repetition N`). -/
def repsLabel (i : Nat) (l : DetectedLoop) : DetectedLoop :=
  { l with label := "Repetition " ++ toString (i + 1) }

/-- Reps mode of final processing: each atomic loop becomes one final unit
verbatim, relabelled sequentially. -/
def repsLoops (atomic : List DetectedLoop) : List DetectedLoop :=
  (List.range atomic.length).map (fun i => repsLabel i (atomic.getD i emptyLoop))

/-- Function `mergeSet` of the component: collapse a nonempty group of atomic loops into one final
unit spanning first start to last end, with averaged bpm (rounded) and
confidence, and `repCount` equal to the group size. -/
def mergeSet (loops : List DetectedLoop) : DetectedLoop :=
  let first := loops.headD emptyLoop
  let last := loops.getLastD emptyLoop
  { startTime := first.startTime, endTime := last.endTime,
    duration := last.endTime - first.startTime,
    bpm := jsRound ((loops.map (fun l => (l.bpm : ℚ))).sum / (loops.length : ℚ)),
    confidence := (loops.map DetectedLoop.confidence).sum / (loops.length : ℚ),
    repCount := loops.length,
    label := "Set of " ++ toString loops.length ++ " Reps" }

/-- The scene-cut scan of the sets-merge walk: sample indices from
`⌊prevEnd · fps⌋` up to (exclusive) `⌈currStart · fps⌉`, clipped to the
sequence length. -/
def sceneCutInGap (fps : ℚ) (detrended : List Sample)
    (prevEnd currStart : ℚ) : Bool :=
  let startIndex := (Int.floor (prevEnd * fps)).toNat
  let endIndex := (Int.ceil (currStart * fps)).toNat
  (List.range (min endIndex detrended.length - startIndex)).any
    (fun o => (detrended.getD (o + startIndex) emptySample).isSceneCut)

/-- The sets-mode merge walk of `startAnalysis`: the open group
`currentSet` absorbs the next atomic loop when the gap since the group's
last loop end is below `max(2.0, previous.duration * 3.0)` and no scene
cut lies in the gap; otherwise the group is closed via `mergeSet` and a
new group starts. -/
def setsWalk (cfg : AnalysisConfig) (fps : ℚ) (detrended : List Sample) :
    List DetectedLoop → List DetectedLoop → List DetectedLoop
  | currentSet, [] => [mergeSet currentSet]
  | currentSet, curr :: rest =>
    let prev := currentSet.getLastD curr
    let gap := curr.startTime - prev.endTime
    let maxGap := max 2 (prev.duration * 3)
    let gapHasCut := cfg.detectSceneChanges &&
      sceneCutInGap fps detrended prev.endTime curr.startTime
    if gap < maxGap ∧ gapHasCut = false then
      setsWalk cfg fps detrended (currentSet ++ [curr]) rest
    else
      mergeSet currentSet :: setsWalk cfg fps detrended [curr] rest

/-- Sets mode of final processing: empty input yields an empty result,
otherwise the walk starts with the first atomic loop as the open group. -/
def setsLoops (cfg : AnalysisConfig) (fps : ℚ) (detrended : List Sample)
    (atomic : List DetectedLoop) : List DetectedLoop :=
  match atomic with
  | [] => []
  | l :: rest => setsWalk cfg fps detrended [l] rest

/-- Step 4 of `startAnalysis`: mode dispatch. -/
def finalLoops (cfg : AnalysisConfig) (fps : ℚ) (detrended : List Sample)
    (atomic : List DetectedLoop) : List DetectedLoop :=
  match cfg.detectionMode with
  | DetectionMode.reps => repsLoops atomic
  | DetectionMode.sets => setsLoops cfg fps detrended atomic

/-- The full post-processing pipeline of `startAnalysis` from the raw
per-instant scores to the final loop list (fusion, optional scene-cut
flagging, optional detrend, smoothing, peak scan, atomic loops, mode
dispatch). -/
def startAnalysisPost (cfg : AnalysisConfig) (raws : List RawSample) :
    List DetectedLoop :=
  let processed := fuseScores cfg.audioWeight raws
  let flagged := if cfg.detectSceneChanges then applySceneCuts raws processed
    else processed
  let detrended := if cfg.ignoreSteadyMotion then
    detrendStage cfg.samplingRate flagged else flagged
  let smoothed := smoothStage cfg.smoothingWindow detrended
  let peaks := detectPeaks smoothed (peakThreshold cfg.sensitivity smoothed)
  finalLoops cfg cfg.samplingRate detrended (atomicLoops cfg detrended peaks)

/-! Concrete fixtures used by the counterexample and witness theorems. -/

/-- Configuration with scene-cut detection enabled, duration bounds
`[1/2, 2]`. -/
def cfgC1 : AnalysisConfig :=
  { sensitivity := 50, minLoopDuration := 1/2, maxLoopDuration := 2,
    samplingRate := 2, smoothingWindow := 0, detectionMode := DetectionMode.reps,
    detectSceneChanges := true, ignoreSteadyMotion := false, audioWeight := 0 }

/-- Detrended sequence whose scene-cut flag sits exactly on index 1, the
start peak's own index; index 2 — the only index strictly between the peak
indices 1 and 3 — is unflagged. -/
def detrendedC1 : List Sample :=
  [{ time := 0, value := 0, isSceneCut := false },
   { time := 1/2, value := 5, isSceneCut := true },
   { time := 1, value := 1, isSceneCut := false },
   { time := 3/2, value := 4, isSceneCut := false }]

/-- Start peak of the `detrendedC1` pair (index 1). -/
def peakC1s : Peak := { time := 1/2, value := 5, index := 1 }

/-- End peak of the `detrendedC1` pair (index 3). -/
def peakC1e : Peak := { time := 3/2, value := 4, index := 3 }

/-- Detrended sequence at 2 fps with a scene-cut flag at index 5
(t = 2.5), strictly between the peaks at t = 2.0 (index 4) and t = 3.0
(index 6). -/
def detrendedW1 : List Sample :=
  [{ time := 0, value := 0, isSceneCut := false },
   { time := 1/2, value := 0, isSceneCut := false },
   { time := 1, value := 0, isSceneCut := false },
   { time := 3/2, value := 0, isSceneCut := false },
   { time := 2, value := 6, isSceneCut := false },
   { time := 5/2, value := 9, isSceneCut := true },
   { time := 3, value := 5, isSceneCut := false }]

/-- Peak at t = 2.0, index 4. -/
def peakW1s : Peak := { time := 2, value := 6, index := 4 }

/-- Peak at t = 3.0, index 6. -/
def peakW1e : Peak := { time := 3, value := 5, index := 6 }

/-- Sets-mode configuration with scene-cut detection disabled. -/
def cfgC3 : AnalysisConfig :=
  { sensitivity := 50, minLoopDuration := 1/2, maxLoopDuration := 2,
    samplingRate := 1, smoothingWindow := 0, detectionMode := DetectionMode.sets,
    detectSceneChanges := false, ignoreSteadyMotion := false, audioWeight := 0 }

/-- Atomic loop spanning `[0, 1]` (duration 1). -/
def loopA : DetectedLoop :=
  { startTime := 0, endTime := 1, duration := 1, bpm := 60, confidence := 1,
    repCount := 1, label := "" }

/-- Atomic loop spanning `[1.2, 2.1]` (duration 0.9). -/
def loopB : DetectedLoop :=
  { startTime := 6/5, endTime := 21/10, duration := 9/10, bpm := 67,
    confidence := 1, repCount := 1, label := "" }

/-- Atomic loop spanning `[5.0, 5.9]` (duration 0.9). -/
def loopC : DetectedLoop :=
  { startTime := 5, endTime := 59/10, duration := 9/10, bpm := 67,
    confidence := 1, repCount := 1, label := "" }

/-- A three-sample smoothed signal with a single interior peak. -/
def smoothedW5 : List Sample :=
  [{ time := 0, value := 0, isSceneCut := false },
   { time := 1, value := 5, isSceneCut := false },
   { time := 2, value := 0, isSceneCut := false }]

/-- Raw scores containing a large visual outlier. -/
def rawsW6 : List RawSample :=
  [{ time := 0, v := 1, a := 0 }, { time := 1/2, v := 1000000, a := 3 }]

/-- Configuration with scene-cut detection disabled and duration bounds
`[1, 2]`. -/
def cfgC7 : AnalysisConfig :=
  { sensitivity := 50, minLoopDuration := 1, maxLoopDuration := 2,
    samplingRate := 2, smoothingWindow := 2, detectionMode := DetectionMode.reps,
    detectSceneChanges := false, ignoreSteadyMotion := false, audioWeight := 0 }

/-- Peak at t = 0. -/
def peakC7s : Peak := { time := 0, value := 10, index := 0 }

/-- Peak at t = 1, yielding a duration exactly at the lower bound. -/
def peakC7e : Peak := { time := 1, value := 10, index := 2 }

end LoopLens

namespace LoopLens

/-! Supporting lemmas. -/

/-- Characterization of a cut-free scan: with scene-cut detection enabled,
`hasCutInLoop` is `false` exactly when every index from the start peak's
index (inclusive) to the end peak's index (exclusive) is unflagged. -/
theorem hasCutInLoop_false_iff (detrended : List Sample) (a b : Nat) :
    hasCutInLoop true detrended a b = false ↔
      ∀ k, a ≤ k → k < b → (detrended.getD k emptySample).isSceneCut = false := by
  unfold hasCutInLoop
  rw [Bool.true_and, List.any_eq_false]
  constructor
  · intro h k hak hkb
    have hm : k - a + a ∈ (List.range (b - a)).map (fun o => o + a) :=
      List.mem_map.mpr ⟨k - a, List.mem_range.mpr (by omega), rfl⟩
    have hk := h _ hm
    rw [Nat.sub_add_cancel hak, Bool.not_eq_true] at hk
    exact hk
  · intro h x hx
    obtain ⟨o, ho, rfl⟩ := List.mem_map.mp hx
    have hob := List.mem_range.mp ho
    rw [Bool.not_eq_true]
    exact h (o + a) (by omega) (by omega)

/-- A `filterMap` whose function succeeds on fewer inputs (with the same
outputs) yields a sublist. -/
theorem filterMap_sublist_of_imp {α β : Type} (l : List α) (f g : α → Option β)
    (h : ∀ x b, g x = some b → f x = some b) :
    List.Sublist (l.filterMap g) (l.filterMap f) := by
  induction l with
  | nil => simp
  | cons x xs ih =>
    rw [List.filterMap_cons, List.filterMap_cons]
    cases hgx : g x with
    | none =>
      cases hfx : f x with
      | none => exact ih
      | some b => exact ih.trans (List.sublist_cons_self b (xs.filterMap f))
    | some b =>
      rw [h x b hgx]
      exact ih.cons₂ b

/-- A peak against a higher threshold is also a peak against a lower one,
with identical data. -/
theorem peakAt_mono (smoothed : List Sample) (t1 t2 : ℚ) (hle : t1 ≤ t2) (i : Nat)
    (p : Peak) (h : peakAt smoothed t2 i = some p) : peakAt smoothed t1 i = some p := by
  unfold peakAt at h ⊢
  split at h
  case isTrue hc =>
    rw [if_pos ⟨hc.1, hc.2.1, hc.2.2.1, lt_of_le_of_lt hle hc.2.2.2⟩]
    exact h
  case isFalse hc => simp at h

/-- On a nonnegative signal the peak threshold is monotone in the
sensitivity value. -/
theorem peakThreshold_mono (smoothed : List Sample) (s1 s2 : ℚ)
    (h0 : ∀ x ∈ smoothed, 0 ≤ x.value) (hs : s1 ≤ s2) :
    peakThreshold s1 smoothed ≤ peakThreshold s2 smoothed := by
  unfold peakThreshold
  have hsum : 0 ≤ (smoothed.map Sample.value).sum := by
    apply List.sum_nonneg
    intro x hx
    obtain ⟨y, hy, rfl⟩ := List.mem_map.mp hx
    exact h0 y hy
  have havg : 0 ≤ (smoothed.map Sample.value).sum / (smoothed.length : ℚ) :=
    div_nonneg hsum (by positivity)
  apply mul_le_mul_of_nonneg_left _ havg
  linarith

/-- The fallback average of a nonnegative score list is positive. -/
theorem fallbackAvg_pos (scores : List ℚ) (h : ∀ x ∈ scores, 0 ≤ x) :
    0 < fallbackAvg scores := by
  unfold fallbackAvg
  dsimp only
  split
  · exact one_pos
  case isFalse hne =>
    have hnn : 0 ≤ scores.sum / (scores.length : ℚ) :=
      div_nonneg (List.sum_nonneg h) (by positivity)
    exact lt_of_le_of_ne hnn (Ne.symm hne)

/-- A nonnegative raw score normalized against a positive average lands in
the unit interval. -/
theorem normalizeScore_unit (raw avg : ℚ) (hraw : 0 ≤ raw) (havg : 0 < avg) :
    0 ≤ normalizeScore raw avg ∧ normalizeScore raw avg ≤ 1 := by
  unfold normalizeScore
  refine ⟨le_min one_pos.le (div_nonneg hraw (by positivity)), min_le_left _ _⟩

/-- A merged set reports the member count as its rep count. -/
theorem mergeSet_repCount (loops : List DetectedLoop) :
    (mergeSet loops).repCount = loops.length := rfl

/-- Invariant of the sets-merge walk: rep counts of the produced units sum
to the open group's size plus the number of remaining loops, and the walk
emits at most one unit more than it consumes loops. -/
theorem setsWalk_spec (cfg : AnalysisConfig) (fps : ℚ) (d : List Sample) :
    ∀ (rest cs : List DetectedLoop),
      ((setsWalk cfg fps d cs rest).map DetectedLoop.repCount).sum =
        cs.length + rest.length ∧
      (setsWalk cfg fps d cs rest).length ≤ 1 + rest.length := by
  intro rest
  induction rest with
  | nil =>
    intro cs
    simp [setsWalk, mergeSet_repCount]
  | cons c rs ih =>
    intro cs
    rw [setsWalk]
    split
    · have h := ih (cs ++ [c])
      constructor
      · rw [h.1]
        simp [List.length_append]
        omega
      · have := h.2
        simp at this ⊢
        omega
    · have h := ih [c]
      constructor
      · rw [List.map_cons, List.sum_cons, mergeSet_repCount, h.1]
        simp
        omega
      · rw [List.length_cons]
        have := h.2
        simp at this ⊢
        omega

/-- Reps mode keeps the atomic-loop count. -/
theorem repsLoops_length (atomic : List DetectedLoop) :
    (repsLoops atomic).length = atomic.length := by
  simp [repsLoops]

/-- Reps mode preserves the rep count of each atomic loop. -/
theorem repsLoops_repCount (atomic : List DetectedLoop)
    (h1 : ∀ l ∈ atomic, l.repCount = 1) :
    ∀ u ∈ repsLoops atomic, u.repCount = 1 := by
  intro u hu
  obtain ⟨i, hi, rfl⟩ := List.mem_map.mp hu
  have hil : i < atomic.length := List.mem_range.mp hi
  have hmem : atomic.getD i emptyLoop ∈ atomic := by
    rw [List.getD_eq_getElem atomic emptyLoop hil]
    exact List.getElem_mem hil
  simpa [repsLabel] using h1 _ hmem

/-- The moving-average window of a nonnegative value list is nonnegative. -/
theorem windowMean_nonneg (arr : List ℚ) (h : ∀ x ∈ arr, 0 ≤ x) (w i : Nat) :
    0 ≤ windowMean arr w i := by
  unfold windowMean
  dsimp only
  apply div_nonneg _ (by positivity)
  apply List.sum_nonneg
  intro x hx
  obtain ⟨j, hj, rfl⟩ := List.mem_map.mp hx
  by_cases hjl : j < arr.length
  · rw [List.getD_eq_getElem arr 0 hjl]
    exact h _ (List.getElem_mem hjl)
  · rw [List.getD_eq_default arr 0 (by omega)]

/-- Detrended values are nonnegative (the stage clamps at zero), so the
signal entering the smoothing stage is nonnegative whenever detrending is
on. -/
theorem detrendStage_value_nonneg (samplingRate : ℚ) (processed : List Sample) :
    ∀ s ∈ detrendStage samplingRate processed, 0 ≤ s.value := by
  intro s hs
  unfold detrendStage at hs
  dsimp only at hs
  obtain ⟨i, hi, rfl⟩ := List.mem_map.mp hs
  exact le_max_left 0 _

/-- Smoothing a nonnegative signal yields a nonnegative signal, so the
smoothed signal entering the peak scan is nonnegative. -/
theorem smoothStage_value_nonneg (sw : Nat) (arr : List Sample)
    (h : ∀ s ∈ arr, 0 ≤ s.value) :
    ∀ s ∈ smoothStage sw arr, 0 ≤ s.value := by
  intro s hs
  unfold smoothStage at hs
  dsimp only at hs
  obtain ⟨i, hi, rfl⟩ := List.mem_map.mp hs
  apply windowMean_nonneg
  intro x hx
  obtain ⟨y, hy, rfl⟩ := List.mem_map.mp hx
  exact h y hy

end LoopLens

namespace LoopLens

/-! Claim theorems. -/

/-- C1 (counterexample): the scene-cut scan of atomic-loop generation runs
from the start peak's index inclusive, so a flag sitting exactly on the
start peak's own index rejects the pair even though no flagged instant
lies strictly between the peak indices (index 2 is the only such index
here and is unflagged) and the duration is within bounds — refuting the
claim that rejection happens exactly for strictly-interior flags. -/
theorem scene_cut_start_index_counterexample :
    loopCandidate cfgC1 detrendedC1 peakC1s peakC1e = none ∧
    (detrendedC1.getD 1 emptySample).isSceneCut = true ∧
    (detrendedC1.getD 2 emptySample).isSceneCut = false ∧
    cfgC1.minLoopDuration ≤ peakC1e.time - peakC1s.time ∧
    peakC1e.time - peakC1s.time ≤ cfgC1.maxLoopDuration := by
  refine ⟨?_, rfl, rfl, by norm_num [cfgC1, peakC1s, peakC1e],
    by norm_num [cfgC1, peakC1s, peakC1e]⟩
  have hcut : hasCutInLoop cfgC1.detectSceneChanges detrendedC1
      peakC1s.index peakC1e.index = true := by decide
  unfold loopCandidate
  rw [hcut]
  simp

/-- C1 (amended): with scene-cut detection enabled, a consecutive peak
pair yields an atomic loop if and only if every index from the start
peak's index (inclusive) up to the end peak's index (exclusive) is free of
scene-cut flags and the duration lies within the inclusive bounds; a flag
on the start peak's own index therefore rejects, while a flag on the end
peak's own index alone does not. -/
theorem loop_candidate_scene_cut_iff (cfg : AnalysisConfig)
    (detrended : List Sample) (s e : Peak)
    (hsc : cfg.detectSceneChanges = true) :
    (loopCandidate cfg detrended s e).isSome = true ↔
      ((∀ k, s.index ≤ k → k < e.index →
          (detrended.getD k emptySample).isSceneCut = false) ∧
        cfg.minLoopDuration ≤ e.time - s.time ∧
        e.time - s.time ≤ cfg.maxLoopDuration) := by
  have hcut := hasCutInLoop_false_iff detrended s.index e.index
  unfold loopCandidate
  rw [hsc]
  dsimp only
  split
  case isTrue h =>
    simp only [Option.isSome_some, true_iff]
    exact ⟨hcut.mp h.1, h.2.1, h.2.2⟩
  case isFalse h =>
    simp only [Option.isSome_none, Bool.false_eq_true, false_iff]
    intro hc
    exact h ⟨hcut.mpr hc.1, hc.2.1, hc.2.2⟩

/-- C1 (witness): the claim's concrete scenario — peaks at t = 2.0 and
t = 3.0 with a flagged scene-cut sample at t = 2.5 strictly between them —
produces no atomic loop, by the amended characterization. -/
theorem loop_candidate_scene_cut_iff_witness :
    cfgC1.detectSceneChanges = true ∧
    loopCandidate cfgC1 detrendedW1 peakW1s peakW1e = none := by
  refine ⟨rfl, ?_⟩
  have h := loop_candidate_scene_cut_iff cfgC1 detrendedW1 peakW1s peakW1e rfl
  rw [← Option.not_isSome_iff_eq_none]
  intro hs
  have hall := (h.mp hs).1
  have h5 := hall 5 (by norm_num [peakW1s]) (by norm_num [peakW1e])
  exact absurd h5 (by decide)

/-- C2 (counterexample): for a one-second video sampled at interval 1/2
the engine emits progress values 0 and 50 only; the last reported
progress of the completed run is 50, not 100 — no terminal 100 is ever
emitted. -/
theorem progress_terminal_not_100 :
    progressEmissions 1 (1/2) = [0, 50] ∧
    (progressEmissions 1 (1/2)).getLastD 0 ≠ 100 := by
  have hceil : Int.ceil ((1 : ℚ) / (1/2)) = 2 := by norm_num
  have hr : List.range 2 = [0, 1] := by decide
  have h : progressEmissions 1 (1/2) = [0, 50] := by
    rw [progressEmissions, sampleTimes, hceil]
    rw [show Int.toNat 2 = 2 from rfl, hr]
    norm_num
  exact ⟨h, by rw [h]; norm_num⟩

/-- C2 (amended): every progress value the engine emits is
`(t / duration) * 100` for a sampled instant `t < duration`, hence lies in
`[0, 100)`; in particular the last reported progress of a completed run is
strictly below 100 and the engine never emits a terminal 100. -/
theorem progress_emissions_below_100 (duration interval : ℚ)
    (hd : 0 < duration) (hi : 0 < interval) :
    ∀ p ∈ progressEmissions duration interval, 0 ≤ p ∧ p < 100 := by
  intro p hp
  obtain ⟨t, ht, rfl⟩ := List.mem_map.mp hp
  obtain ⟨k, hk0, rfl⟩ := List.mem_map.mp ht
  have hk1 := List.mem_range.mp hk0
  have hk2 : (k : ℤ) + 1 ≤ Int.ceil (duration / interval) := by omega
  have hk3 : ((k : ℚ) + 1) ≤ (Int.ceil (duration / interval) : ℚ) := by
    exact_mod_cast hk2
  have hk4 : (Int.ceil (duration / interval) : ℚ) < duration / interval + 1 :=
    Int.ceil_lt_add_one (duration / interval)
  have hkq : (k : ℚ) < duration / interval := by linarith
  have htlt : (k : ℚ) * interval < duration := (lt_div_iff₀ hi).mp hkq
  constructor
  · positivity
  · have hlt1 : (k : ℚ) * interval / duration < 1 := (div_lt_one hd).mpr htlt
    linarith

/-- C2 (witness): the bound instantiated at duration 1 and interval 1/2. -/
theorem progress_emissions_below_100_witness :
    (0 : ℚ) < 1 ∧ (0 : ℚ) < 1/2 ∧
      ∀ p ∈ progressEmissions 1 (1/2), 0 ≤ p ∧ p < 100 :=
  ⟨by norm_num, by norm_num,
    progress_emissions_below_100 1 (1/2) (by norm_num) (by norm_num)⟩

/-- C3 (counterexample): the claim's arithmetic for the second gap fails
— 2.9 is not less than `max(2.0, 0.9 * 3.0) = 2.7` — so the third loop
does not merge into the same group: the walk over the three atomic loops
`[0,1]`, `[1.2,2.1]`, `[5.0,5.9]` produces two final units with rep
counts 2 and 1, not one unit of 3. -/
theorem set_merge_gap_counterexample :
    ¬ ((5 : ℚ) - 21/10 < max 2 ((9/10) * 3)) ∧
    (setsLoops cfgC3 1 [] [loopA, loopB, loopC]).map DetectedLoop.repCount = [2, 1] := by
  constructor
  · norm_num
  · norm_num [setsLoops, setsWalk, mergeSet, loopA, loopB, loopC,
      sceneCutInGap, cfgC3]

/-- C3 (amended): the first gap 0.2 is below `max(2.0, 1.0 * 3.0)` so the
second loop merges with the first, while the second gap 2.9 is not below
`max(2.0, 0.9 * 3.0) = 2.7`, so the group is closed and the third loop
starts a new group — the sets walk yields the units `[0, 2.1]` with rep
count 2 and `[5, 5.9]` with rep count 1. -/
theorem set_merge_gap_amended :
    ((6 : ℚ)/5 - 1 < max 2 ((1 : ℚ) * 3)) ∧
    ¬ ((5 : ℚ) - 21/10 < max 2 ((9/10) * 3)) ∧
    (setsLoops cfgC3 1 [] [loopA, loopB, loopC]).map DetectedLoop.repCount = [2, 1] ∧
    (setsLoops cfgC3 1 [] [loopA, loopB, loopC]).map DetectedLoop.startTime = [0, 5] ∧
    (setsLoops cfgC3 1 [] [loopA, loopB, loopC]).map DetectedLoop.endTime = [21/10, 59/10] := by
  refine ⟨by norm_num, by norm_num, ?_, ?_, ?_⟩ <;>
    norm_num [setsLoops, setsWalk, mergeSet, loopA, loopB, loopC,
      sceneCutInGap, cfgC3]

/-- C4: an index is registered as a peak by the scan if and only if it is
strictly interior, its smoothed value strictly exceeds both neighbours,
and it strictly exceeds `peakThreshold`; since every comparison is strict,
a flat-top plateau of equal values is never registered. -/
theorem peak_rule_iff (smoothed : List Sample) (sensitivity : ℚ) (i : Nat) :
    (∃ p ∈ detectPeaks smoothed (peakThreshold sensitivity smoothed), p.index = i) ↔
      (0 < i ∧ i + 1 < smoothed.length ∧
        (smoothed.getD i emptySample).value > (smoothed.getD (i - 1) emptySample).value ∧
        (smoothed.getD i emptySample).value > (smoothed.getD (i + 1) emptySample).value ∧
        (smoothed.getD i emptySample).value > peakThreshold sensitivity smoothed) := by
  constructor
  · rintro ⟨p, hp, rfl⟩
    obtain ⟨j, hj, hpj⟩ := List.mem_filterMap.mp hp
    unfold peakAt at hpj
    split at hpj
    case isTrue hc =>
      obtain rfl := Option.some_inj.mp hpj
      exact ⟨hc.1.1, hc.1.2, hc.2.1, hc.2.2.1, hc.2.2.2⟩
    case isFalse hc => simp at hpj
  · rintro ⟨h1, h2, h3, h4, h5⟩
    refine ⟨{ time := (smoothed.getD i emptySample).time,
              value := (smoothed.getD i emptySample).value, index := i },
            List.mem_filterMap.mpr ⟨i, List.mem_range.mpr (by omega), ?_⟩, rfl⟩
    unfold peakAt
    rw [if_pos ⟨⟨h1, h2⟩, h3, h4, h5⟩]

/-- C5: on a nonnegative smoothed signal (all pipeline signals are
nonnegative, see `detrendStage_value_nonneg` and
`smoothStage_value_nonneg`), raising the sensitivity raises or keeps the
peak threshold, so the peaks detected at a higher sensitivity form a
sublist of those at a lower sensitivity and their number never
increases. -/
theorem peaks_antitone_in_sensitivity (smoothed : List Sample) (s1 s2 : ℚ)
    (h0 : ∀ x ∈ smoothed, 0 ≤ x.value) (hs : s1 ≤ s2) :
    List.Sublist (detectPeaks smoothed (peakThreshold s2 smoothed))
      (detectPeaks smoothed (peakThreshold s1 smoothed)) ∧
    (detectPeaks smoothed (peakThreshold s2 smoothed)).length ≤
      (detectPeaks smoothed (peakThreshold s1 smoothed)).length := by
  have hsub := filterMap_sublist_of_imp (List.range smoothed.length)
    (peakAt smoothed (peakThreshold s1 smoothed))
    (peakAt smoothed (peakThreshold s2 smoothed))
    (fun i p => peakAt_mono smoothed _ _ (peakThreshold_mono smoothed s1 s2 h0 hs) i p)
  exact ⟨hsub, hsub.length_le⟩

/-- C5 (witness): the antitone property instantiated on a concrete signal
at sensitivities 10 and 200. -/
theorem peaks_antitone_in_sensitivity_witness :
    (∀ x ∈ smoothedW5, 0 ≤ x.value) ∧ (10 : ℚ) ≤ 200 ∧
    (List.Sublist (detectPeaks smoothedW5 (peakThreshold 200 smoothedW5))
        (detectPeaks smoothedW5 (peakThreshold 10 smoothedW5)) ∧
      (detectPeaks smoothedW5 (peakThreshold 200 smoothedW5)).length ≤
        (detectPeaks smoothedW5 (peakThreshold 10 smoothedW5)).length) := by
  have hpos : ∀ x ∈ smoothedW5, 0 ≤ x.value := by
    intro x hx
    simp [smoothedW5] at hx
    rcases hx with rfl | rfl | rfl <;> norm_num
  exact ⟨hpos, by norm_num,
    peaks_antitone_in_sensitivity smoothedW5 10 200 hpos (by norm_num)⟩

/-- C6: with nonnegative raw scores (visual and audio scores are
nonnegative by construction) and an audio weight within `[0, 100]`, every
normalized score lies in `[0, 1]` regardless of outlier magnitude, and
every fused value lies in `[0, 255]`. -/
theorem normalization_bounded (raws : List RawSample) (audioWeight : ℚ)
    (hva : ∀ r ∈ raws, 0 ≤ r.v ∧ 0 ≤ r.a)
    (hw0 : 0 ≤ audioWeight) (hw1 : audioWeight ≤ 100) :
    (∀ r ∈ raws,
        (0 ≤ normalizeScore r.v (fallbackAvg (raws.map RawSample.v)) ∧
          normalizeScore r.v (fallbackAvg (raws.map RawSample.v)) ≤ 1) ∧
        (0 ≤ normalizeScore r.a (fallbackAvg (raws.map RawSample.a)) ∧
          normalizeScore r.a (fallbackAvg (raws.map RawSample.a)) ≤ 1)) ∧
    ∀ s ∈ fuseScores audioWeight raws, 0 ≤ s.value ∧ s.value ≤ 255 := by
  have havV : 0 < fallbackAvg (raws.map RawSample.v) := by
    apply fallbackAvg_pos
    intro x hx
    obtain ⟨r, hr, rfl⟩ := List.mem_map.mp hx
    exact (hva r hr).1
  have havA : 0 < fallbackAvg (raws.map RawSample.a) := by
    apply fallbackAvg_pos
    intro x hx
    obtain ⟨r, hr, rfl⟩ := List.mem_map.mp hx
    exact (hva r hr).2
  have hnorm : ∀ r ∈ raws,
      (0 ≤ normalizeScore r.v (fallbackAvg (raws.map RawSample.v)) ∧
        normalizeScore r.v (fallbackAvg (raws.map RawSample.v)) ≤ 1) ∧
      (0 ≤ normalizeScore r.a (fallbackAvg (raws.map RawSample.a)) ∧
        normalizeScore r.a (fallbackAvg (raws.map RawSample.a)) ≤ 1) := by
    intro r hr
    exact ⟨normalizeScore_unit _ _ (hva r hr).1 havV,
           normalizeScore_unit _ _ (hva r hr).2 havA⟩
  refine ⟨hnorm, ?_⟩
  intro s hs
  unfold fuseScores at hs
  dsimp only at hs
  obtain ⟨r, hr, rfl⟩ := List.mem_map.mp hs
  dsimp only
  obtain ⟨⟨hv0, hv1⟩, ha0, ha1⟩ := hnorm r hr
  have hwA0 : 0 ≤ audioWeight / 100 := by positivity
  have hwA1 : audioWeight / 100 ≤ 1 := by linarith
  have hwV0 : 0 ≤ 1 - audioWeight / 100 := by linarith
  constructor
  · have hterm1 := mul_nonneg hv0 hwV0
    have hterm2 := mul_nonneg ha0 hwA0
    linarith
  · have h1 : normalizeScore r.v (fallbackAvg (raws.map RawSample.v)) * (1 - audioWeight / 100) ≤
        1 - audioWeight / 100 := mul_le_of_le_one_left hwV0 hv1
    have h2 : normalizeScore r.a (fallbackAvg (raws.map RawSample.a)) * (audioWeight / 100) ≤
        audioWeight / 100 := mul_le_of_le_one_left hwA0 ha1
    linarith

/-- C6 (witness): the bounds instantiated on raw scores containing a
six-orders-of-magnitude visual outlier, at audio weight 30. -/
theorem normalization_bounded_witness :
    (∀ r ∈ rawsW6, 0 ≤ r.v ∧ 0 ≤ r.a) ∧ (0 : ℚ) ≤ 30 ∧ (30 : ℚ) ≤ 100 ∧
    ((∀ r ∈ rawsW6,
        (0 ≤ normalizeScore r.v (fallbackAvg (rawsW6.map RawSample.v)) ∧
          normalizeScore r.v (fallbackAvg (rawsW6.map RawSample.v)) ≤ 1) ∧
        (0 ≤ normalizeScore r.a (fallbackAvg (rawsW6.map RawSample.a)) ∧
          normalizeScore r.a (fallbackAvg (rawsW6.map RawSample.a)) ≤ 1)) ∧
      ∀ s ∈ fuseScores 30 rawsW6, 0 ≤ s.value ∧ s.value ≤ 255) := by
  have hva : ∀ r ∈ rawsW6, 0 ≤ r.v ∧ 0 ≤ r.a := by
    intro r hr
    simp [rawsW6] at hr
    rcases hr with rfl | rfl <;> norm_num
  exact ⟨hva, by norm_num, by norm_num,
    normalization_bounded rawsW6 30 hva (by norm_num) (by norm_num)⟩

/-- C7: when scene-cut detection is disabled (or no index in the scanned
range is flagged), a consecutive peak pair yields an atomic loop if and
only if its duration lies within the configured bounds, both bounds
inclusive. -/
theorem duration_bounds_inclusive_iff (cfg : AnalysisConfig)
    (detrended : List Sample) (s e : Peak)
    (hsc : cfg.detectSceneChanges = false ∨
      ∀ k, s.index ≤ k → k < e.index →
        (detrended.getD k emptySample).isSceneCut = false) :
    (loopCandidate cfg detrended s e).isSome = true ↔
      cfg.minLoopDuration ≤ e.time - s.time ∧
        e.time - s.time ≤ cfg.maxLoopDuration := by
  have hcut : hasCutInLoop cfg.detectSceneChanges detrended s.index e.index = false := by
    rcases hsc with h | h
    · simp [hasCutInLoop, h]
    · cases hb : cfg.detectSceneChanges
      · simp [hasCutInLoop]
      · exact (hasCutInLoop_false_iff detrended s.index e.index).mpr h
  unfold loopCandidate
  rw [hcut]
  dsimp only
  split
  case isTrue h =>
    simp only [Option.isSome_some, true_iff]
    exact ⟨h.2.1, h.2.2⟩
  case isFalse h =>
    simp only [Option.isSome_none, Bool.false_eq_true, false_iff]
    intro hc
    exact h ⟨rfl, hc.1, hc.2⟩

/-- C7 (witness): a pair whose duration equals the lower bound exactly is
accepted (inclusive boundary), with scene-cut detection disabled. -/
theorem duration_bounds_inclusive_iff_witness :
    cfgC7.detectSceneChanges = false ∧
    (loopCandidate cfgC7 [] peakC7s peakC7e).isSome = true := by
  refine ⟨rfl, ?_⟩
  exact (duration_bounds_inclusive_iff cfgC7 [] peakC7s peakC7e (Or.inl rfl)).mpr
    ⟨by norm_num [cfgC7, peakC7s, peakC7e], by norm_num [cfgC7, peakC7s, peakC7e]⟩

/-- C8: for any list of N atomic loops (each carrying rep count 1, as
produced by atomic-loop generation), reps mode emits exactly N final
units, each with rep count 1, and sets mode emits at most N final units
whose rep counts sum to N — the merge walk partitions the loops, losing
and duplicating none. -/
theorem reps_sets_duality (cfg : AnalysisConfig) (fps : ℚ) (d : List Sample)
    (loops : List DetectedLoop) (h1 : ∀ l ∈ loops, l.repCount = 1) :
    (repsLoops loops).length = loops.length ∧
    (∀ u ∈ repsLoops loops, u.repCount = 1) ∧
    (setsLoops cfg fps d loops).length ≤ loops.length ∧
    ((setsLoops cfg fps d loops).map DetectedLoop.repCount).sum = loops.length := by
  refine ⟨repsLoops_length loops, repsLoops_repCount loops h1, ?_, ?_⟩
  · cases loops with
    | nil => simp [setsLoops]
    | cons l rest =>
      have h := (setsWalk_spec cfg fps d rest [l]).2
      rw [setsLoops]
      simp at h ⊢
      omega
  · cases loops with
    | nil => simp [setsLoops]
    | cons l rest =>
      have h := (setsWalk_spec cfg fps d rest [l]).1
      rw [setsLoops]
      simp at h ⊢
      omega

/-- C8 (witness): the duality instantiated on the three concrete atomic
loops, where sets mode produces two units with rep counts 2 and 1. -/
theorem reps_sets_duality_witness :
    (∀ l ∈ [loopA, loopB, loopC], l.repCount = 1) ∧
    ((repsLoops [loopA, loopB, loopC]).length = [loopA, loopB, loopC].length ∧
      (∀ u ∈ repsLoops [loopA, loopB, loopC], u.repCount = 1) ∧
      (setsLoops cfgC3 1 [] [loopA, loopB, loopC]).length ≤
        [loopA, loopB, loopC].length ∧
      ((setsLoops cfgC3 1 [] [loopA, loopB, loopC]).map DetectedLoop.repCount).sum =
        [loopA, loopB, loopC].length) := by
  have h1 : ∀ l ∈ [loopA, loopB, loopC], l.repCount = 1 := by
    intro l hl
    simp [loopA, loopB, loopC] at hl
    rcases hl with rfl | rfl | rfl <;> rfl
  exact ⟨h1, reps_sets_duality cfgC3 1 [] [loopA, loopB, loopC] h1⟩

/-- C9: when the audio decode fails (with a positive audio weight), the
setup yields no audio buffer and logs info then a warning — never an
error — and with no buffer every audio score of every instant is 0, so
the whole sampled audio-score sequence is identically zero and the
analysis continues video-only. -/
theorem audio_decode_failure_degrades (sqrtQ : ℚ → ℚ) (audioWeight : ℚ)
    (hw : 0 < audioWeight) :
    (audioSetup audioWeight (Except.error ())).1 = none ∧
    (audioSetup audioWeight (Except.error ())).2 = [LogLevel.info, LogLevel.warn] ∧
    LogLevel.error ∉ (audioSetup audioWeight (Except.error ())).2 ∧
    (∀ t w, getAudioRMS sqrtQ none t w = 0) ∧
    (∀ duration interval, audioScores sqrtQ none duration interval =
      List.replicate (sampleTimes duration interval).length 0) := by
  have h : audioSetup audioWeight (Except.error ()) =
      (none, [LogLevel.info, LogLevel.warn]) := by
    simp [audioSetup, hw]
  refine ⟨by rw [h], by rw [h], by rw [h]; simp, fun t w => rfl, fun dur itv => ?_⟩
  unfold audioScores
  have hfun : (fun t => getAudioRMS sqrtQ none t itv) = fun _ => (0 : ℚ) := rfl
  rw [hfun, List.map_const']

/-- C9 (witness): the degradation instantiated at audio weight 50 with
the identity standing in for the square root. -/
theorem audio_decode_failure_degrades_witness :
    (0 : ℚ) < 50 ∧
    ((audioSetup 50 (Except.error ())).1 = none ∧
      (audioSetup 50 (Except.error ())).2 = [LogLevel.info, LogLevel.warn] ∧
      LogLevel.error ∉ (audioSetup 50 (Except.error ())).2 ∧
      (∀ t w, getAudioRMS id none t w = 0) ∧
      (∀ duration interval, audioScores id none duration interval =
        List.replicate (sampleTimes duration interval).length 0)) :=
  ⟨by norm_num, audio_decode_failure_degrades id 50 (by norm_num)⟩

/-- C10: a configured smoothing window of 0 is replaced by the effective
half-width 2 (the smoothing stage behaves exactly as with a configured 2),
while every positive configured value is used as given. -/
theorem smoothing_window_zero_default :
    (∀ arr : List Sample, smoothStage 0 arr = smoothStage 2 arr) ∧
    ∀ w : Nat, 0 < w → effectiveSmoothingWindow w = w := by
  constructor
  · intro arr
    rfl
  · intro w hw
    unfold effectiveSmoothingWindow
    rw [if_neg (by omega)]

/-- C10 (witness): a positive configured window (5) is used as given. -/
theorem smoothing_window_zero_default_witness :
    0 < 5 ∧ effectiveSmoothingWindow 5 = 5 :=
  ⟨by norm_num, smoothing_window_zero_default.2 5 (by norm_num)⟩

end LoopLens
